import Mathlib

/-!
Verification development for the `cubeformer` repository
(`src/model/decoder_only.py` and `src/trainer.py`).

The Python/JAX code is shallowly embedded in Lean:
* arrays are `List`-based (an `(m, n)` float array is a `List (List ℝ)`);
* machine floats are modelled as real numbers;
* the JAX PRNG (`jax.random.split`, `jax.random.choice`) is modelled by a
  deterministic mixing function: the claims under verification depend only on
  determinism, on the number of keys produced and on the sampled indices lying
  in range, never on the statistical quality of the generator;
* per-position application of the Equinox vector modules
  (`nn.Linear`, `nn.LayerNorm`, `nn.Embedding`, attention projections) follows
  the shape annotations of the source (`seq_len d_model → seq_len d_model`):
  a module over feature vectors is applied row by row.
-/

namespace Cubeformer

/-! ### PRNG model (jax.random) -/

/-- Deterministic key-mixing function.  Model of the threefry hash underlying
`jax.random`: any injective-looking mixing function works, since the verified
claims depend only on the derivation being a deterministic function of the
parent key. -/
def mix (k i : ℕ) : ℕ :=
  2654435761 * k + 40503 * i + 1

/-- Model of `jax.random.split(key, n)`: a list of `n` fresh keys, each a
deterministic function of `key`. -/
def split (k n : ℕ) : List ℕ :=
  (List.range n).map (mix k)

/-- Model of `key, sk = jax.random.split(key)` (the default two-way split):
the pair of the two derived keys. -/
def split2 (k : ℕ) : ℕ × ℕ :=
  ((split k 2).getD 0 0, (split k 2).getD 1 0)

/-- Model of `jax.random.choice(key, n, (batch_size,), replace=True)`:
`batchSize` indices sampled (with replacement) from `[0, n)`. -/
def choice (k n batchSize : ℕ) : List ℕ :=
  (List.range batchSize).map (fun i => mix k i % n)

/-! ### `loader` (src/trainer.py, lines 20-26) -/

/-- Embedding of `loader(dataset, batch_size, n_iters, key)`: for each of the
`n_iters` subkeys of `key`, sample `batch_size` indices with replacement and
stack the corresponding dataset items into a batch. -/
def loader {α : Type} [Inhabited α] (dataset : List α) (batchSize nIters key : ℕ) :
    List (List α) :=
  (split key nIters).map (fun sk =>
    let batchIds := choice sk dataset.length batchSize
    batchIds.map (fun i => dataset.getD i default))

/-! ### Causal mask (src/model/decoder_only.py, lines 78-80) -/

/-- `jnp.eye(n, dtype=jnp.int)`: the n×n integer identity matrix. -/
def eyeMat (n : ℕ) : List (List ℤ) :=
  (List.range n).map (fun i => (List.range n).map (fun j => if i = j then 1 else 0))

/-- One row of `jnp.cumsum(·, axis=1)`: entry `j` is the sum of entries
`0..j` of the row. -/
def cumsumRow (row : List ℤ) : List ℤ :=
  (List.range row.length).map (fun j => (row.take (j + 1)).sum)

/-- `jnp.cumsum(m, axis=1)`: cumulative sums along each row. -/
def cumsumAxis1 (m : List (List ℤ)) : List (List ℤ) :=
  m.map cumsumRow

/-- `.T` on a square matrix given as a list of rows. -/
def transposeSq (m : List (List ℤ)) : List (List ℤ) :=
  (List.range m.length).map (fun i =>
    (List.range m.length).map (fun j => (m.getD j []).getD i 0))

/-- The mask built in `DecoderOnlyTransformer.__call__`:
`jnp.cumsum(jnp.eye(n), axis=1).T.astype(jnp.bool)`. -/
def buildMask (n : ℕ) : List (List Bool) :=
  (transposeSq (cumsumAxis1 (eyeMat n))).map (fun row => row.map (fun v => v != 0))

/-- Boolean mask entry `(i, j)` (out-of-range reads default to `false`). -/
def maskAt (mask : List (List Bool)) (i j : ℕ) : Bool :=
  (mask.getD i []).getD j false

/-! ### Vector and matrix operations over ℝ -/

/-- Dot product of two float vectors. -/
noncomputable def dotR (a b : List ℝ) : ℝ :=
  (List.zipWith (fun u v => u * v) a b).sum

/-- `W @ x` for a weight matrix `W` (list of rows) and a vector `x`:
the semantics of the Equinox `nn.Linear` weight application. -/
noncomputable def matVec (W : List (List ℝ)) (x : List ℝ) : List ℝ :=
  W.map (fun row => dotR row x)

/-- Elementwise sum of two vectors (`x + x_att`, `x + x_ffn`). -/
noncomputable def addVec (a b : List ℝ) : List ℝ :=
  List.zipWith (fun u v => u + v) a b

/-- `jax.nn.relu` applied elementwise. -/
noncomputable def reluVec (x : List ℝ) : List ℝ :=
  x.map (fun t => max t 0)

/-! ### Equinox modules used by the model -/

/-- Parameters of `nn.MultiheadAttention(num_heads, d_model)`:
query/key/value/output projection weights (no biases, the Equinox default)
together with the head count and per-head size `qkSize = d_model / num_heads`. -/
structure MHAParams where
  numHeads : ℕ
  qkSize : ℕ
  wq : List (List ℝ)
  wk : List (List ℝ)
  wv : List (List ℝ)
  wo : List (List ℝ)

/-- Parameters of the feed-forward block
`Sequential [Linear(d, 4d, no bias), relu, Linear(4d, d, no bias)]`. -/
structure FFNParams where
  w1 : List (List ℝ)
  w2 : List (List ℝ)

/-- Parameters of `nn.LayerNorm(d_model)`. -/
structure LNParams where
  weight : List ℝ
  bias : List ℝ
  eps : ℝ

/-- Parameters of one `DecoderOnlyLayer`. -/
structure DecoderOnlyLayer where
  mha : MHAParams
  ffn : FFNParams
  norm1 : LNParams
  norm2 : LNParams

/-- Parameters of a `DecoderOnlyTransformer`: token embedding table, the list
of decoder layers, and the final `nn.Linear(d_model, num_logits)` projection
(with bias, the Equinox default). -/
structure DecoderOnlyTransformer where
  embedding : List (List ℝ)
  layers : List DecoderOnlyLayer
  logitsW : List (List ℝ)
  logitsB : List ℝ

/-- `nn.LayerNorm` on one feature vector: normalise by mean and variance,
then apply the elementwise affine weight and bias. -/
noncomputable def lnApply (p : LNParams) (x : List ℝ) : List ℝ :=
  let mean := x.sum / (x.length : ℝ)
  let variance := ((x.map (fun t => (t - mean) ^ 2)).sum) / (x.length : ℝ)
  let normalized := x.map (fun t => (t - mean) / Real.sqrt (variance + p.eps))
  List.zipWith (fun u v => u + v) (List.zipWith (fun u v => u * v) p.weight normalized) p.bias

/-- The feed-forward block on one feature vector. -/
noncomputable def ffnApply (p : FFNParams) (x : List ℝ) : List ℝ :=
  matVec p.w2 (reluVec (matVec p.w1 x))

/-! ### Multi-head attention (`self.mha(x, x, x, mask)`)

Equinox computes per-position query/key/value projections, reshapes them into
`num_heads` heads of size `qkSize`, runs scaled dot-product attention per head
with the shared `(L, L)` mask, concatenates the heads and applies the output
projection.  Masked logits are replaced by the most negative float before the
softmax; in exact arithmetic this is a zero attention weight, which is how the
masking is modelled here. -/

/-- The slice of a projected vector belonging to head `hIdx`. -/
noncomputable def headSlice (hIdx qk : ℕ) (v : List ℝ) : List ℝ :=
  (v.drop (hIdx * qk)).take qk

/-- Scaled dot-product attention logit of head `hIdx` between query position
`i` and key position `j`. -/
noncomputable def attnScore (p : MHAParams) (xs : List (List ℝ)) (hIdx i j : ℕ) : ℝ :=
  dotR (headSlice hIdx p.qkSize (matVec p.wq (xs.getD i [])))
      (headSlice hIdx p.qkSize (matVec p.wk (xs.getD j []))) /
    Real.sqrt p.qkSize

/-- Exponentiated attention logit after masking: masked-out pairs contribute
zero weight. -/
noncomputable def maskedExpScore (p : MHAParams) (mask : List (List Bool))
    (xs : List (List ℝ)) (hIdx i j : ℕ) : ℝ :=
  if maskAt mask i j then Real.exp (attnScore p xs hIdx i j) else 0

/-- Softmax attention weight of head `hIdx` from query position `i` to key
position `j`. -/
noncomputable def attnWeight (p : MHAParams) (mask : List (List Bool))
    (xs : List (List ℝ)) (hIdx i j : ℕ) : ℝ :=
  maskedExpScore p mask xs hIdx i j /
    ((List.range xs.length).map (fun t => maskedExpScore p mask xs hIdx i t)).sum

/-- Output of head `hIdx` at query position `i`: the attention-weighted sum of
the value slices. -/
noncomputable def headOut (p : MHAParams) (mask : List (List Bool))
    (xs : List (List ℝ)) (hIdx i : ℕ) : List ℝ :=
  (List.range p.qkSize).map (fun d =>
    ((List.range xs.length).map (fun j =>
      attnWeight p mask xs hIdx i j *
        (headSlice hIdx p.qkSize (matVec p.wv (xs.getD j []))).getD d 0)).sum)

/-- Concatenation of all head outputs at query position `i`. -/
noncomputable def headsConcat (p : MHAParams) (mask : List (List Bool))
    (xs : List (List ℝ)) (i : ℕ) : List ℝ :=
  ((List.range p.numHeads).map (fun hIdx => headOut p mask xs hIdx i)).flatten

/-- `self.mha(x, x, x, mask)`: one output row per input row. -/
noncomputable def mhaOut (p : MHAParams) (mask : List (List Bool))
    (xs : List (List ℝ)) : List (List ℝ) :=
  (List.range xs.length).map (fun i => matVec p.wo (headsConcat p mask xs i))

/-- `DecoderOnlyLayer.__call__`: attention with a residual connection and
layer norm, then the feed-forward block with a residual connection and layer
norm (`lines 37-46` of `decoder_only.py`). -/
noncomputable def DecoderOnlyLayer.call (l : DecoderOnlyLayer)
    (xs : List (List ℝ)) (mask : List (List Bool)) : List (List ℝ) :=
  let xAtt := mhaOut l.mha mask xs
  let xs1 := (List.zipWith addVec xs xAtt).map (lnApply l.norm1)
  let xFfn := xs1.map (ffnApply l.ffn)
  (List.zipWith addVec xs1 xFfn).map (lnApply l.norm2)

/-- `DecoderOnlyTransformer.__call__` (lines 75-88): build the causal mask
from the input length, embed the tokens, fold the decoder layers in sequence,
and apply the final logits projection per position. -/
noncomputable def DecoderOnlyTransformer.forward (M : DecoderOnlyTransformer)
    (x : List ℤ) : List (List ℝ) :=
  let mask := buildMask x.length
  let h0 := x.map (fun t => M.embedding.getD t.toNat [])
  let hL := M.layers.foldl (fun acc l => l.call acc mask) h0
  hL.map (fun row => addVec (matVec M.logitsW row) M.logitsB)

/-! ### Parameter initialisation (`__init__`)

The PRNG-based weight initialisers are modelled shape-faithfully: a weight
matrix of shape `(m, n)` derived from key `k` has entry `(i, j)` equal to a
deterministic function of `(k, i, j)`.  The verified claims depend on the
shapes and on the construction-time control flow, never on the sampled
values. -/

/-- One initialiser sample, as a real number. -/
noncomputable def initVal (k i j : ℕ) : ℝ :=
  (mix (mix k i) j : ℕ)

/-- An `(m, n)` weight matrix initialised from key `k`. -/
noncomputable def initMatrix (k m n : ℕ) : List (List ℝ) :=
  (List.range m).map (fun i => (List.range n).map (fun j => initVal k i j))

/-- A length-`n` bias vector initialised from key `k`. -/
noncomputable def initVec (k n : ℕ) : List ℝ :=
  (List.range n).map (fun j => initVal k n j)

/-- The parameter assignment built by a successful `DecoderOnlyLayer.__init__`:
attention projections, feed-forward weights and the two layer norms, with all
weight shapes as in the source. -/
noncomputable def layerOf (dModel numHeads key : ℕ) : DecoderOnlyLayer :=
  let p1 := split2 key
  let p2 := split2 p1.1
  let p3 := split2 p2.1
  { mha :=
      { numHeads := numHeads
        qkSize := dModel / numHeads
        wq := initMatrix (mix p1.2 0) dModel dModel
        wk := initMatrix (mix p1.2 1) dModel dModel
        wv := initMatrix (mix p1.2 2) dModel dModel
        wo := initMatrix (mix p1.2 3) dModel dModel }
    ffn :=
      { w1 := initMatrix p2.2 (dModel * 4) dModel
        w2 := initMatrix p3.2 dModel (4 * dModel) }
    norm1 := { weight := List.replicate dModel 1, bias := List.replicate dModel 0,
               eps := 1 / 100000 }
    norm2 := { weight := List.replicate dModel 1, bias := List.replicate dModel 0,
               eps := 1 / 100000 } }

/-- `DecoderOnlyLayer.__init__(d_model, num_heads, key)` (lines 16-33):
`assert d_model % num_heads == 0`, then build the attention, feed-forward and
norm parameters.  The failed assertion is modelled as `none`. -/
noncomputable def DecoderOnlyLayer.init (dModel numHeads key : ℕ) :
    Option DecoderOnlyLayer :=
  if dModel % numHeads = 0 then some (layerOf dModel numHeads key) else none

/-- `DecoderOnlyTransformer.__init__` (lines 55-73): split a subkey for the
embedding, then `key, *subkeys = random.split(key, num_layers)` — the head of
the split becomes the carried key and the remaining `num_layers - 1` keys
build the decoder layers — and finally the logits projection from the carried
key.  An empty split (num_layers = 0) fails the unpacking, and a failed layer
assertion propagates; both are modelled as `none`. -/
noncomputable def DecoderOnlyTransformer.init
    (numEmbeddings dModel numHeads numLayers numLogits key : ℕ) :
    Option DecoderOnlyTransformer :=
  let p1 := split2 key
  let embedding := initMatrix p1.2 numEmbeddings dModel
  let ks := split p1.1 numLayers
  if ks.isEmpty then none
  else
    let key2 := ks.headD 0
    let subkeys := ks.tail
    (subkeys.mapM (fun sk => DecoderOnlyLayer.init dModel numHeads sk)).map
      (fun layers =>
        { embedding := embedding
          layers := layers
          logitsW := initMatrix (mix key2 0) numLogits dModel
          logitsB := initVec (mix key2 1) numLogits })

/-! ### Trainer (src/trainer.py) -/

/-- `eqx.partition(model, eqx.is_array)`: the model is split into its array
leaves and its static part.  All leaves of the embedded model are arrays, so
the partition is modelled as the pair of the model and a trivial static
part. -/
def partitionModel (M : DecoderOnlyTransformer) : DecoderOnlyTransformer × Unit :=
  (M, ())

/-- `eqx.combine(params, static)`: inverse of the partition. -/
def combineModel (params : DecoderOnlyTransformer) (_static : Unit) :
    DecoderOnlyTransformer :=
  params

/-- `optax.losses.softmax_cross_entropy_with_integer_labels(logits, y)` for a
single position: `logsumexp(logits) - logits[y]`. -/
noncomputable def softmaxCEInt (logits : List ℝ) (y : ℤ) : ℝ :=
  Real.log ((logits.map Real.exp).sum) - logits.getD y.toNat 0

/-- `jnp.argmax` over a vector: index of the first occurrence of the maximum
(0 on an empty vector). -/
noncomputable def argmaxList : List ℝ → ℕ
  | [] => 0
  | x :: xs => if xs.foldl max x ≤ x then 0 else argmaxList xs + 1

/-- `jnp.mean` of a 1-D array. -/
noncomputable def listMean (l : List ℝ) : ℝ :=
  l.sum / (l.length : ℝ)

/-- `jnp.mean` of a 2-D array: the sum of all entries divided by the total
number of entries. -/
noncomputable def matMean (m : List (List ℝ)) : ℝ :=
  ((m.map List.sum).sum) / (((m.map List.length).sum : ℕ) : ℝ)

/-- `loss_fn(params, static, tokens)` (lines 46-58): recombine the model,
shift the tokens into inputs `tokens[:, :-1]` and targets `tokens[:, 1:]`,
run the model over the batch and return the mean softmax cross-entropy. -/
noncomputable def loss_fn (params : DecoderOnlyTransformer) (static : Unit)
    (tokens : List (List ℤ)) : ℝ :=
  let model := combineModel params static
  let x := tokens.map (fun row => row.dropLast)
  let y := tokens.map (fun row => row.drop 1)
  let yLogits := x.map model.forward
  matMean (List.zipWith (fun lr yr => List.zipWith softmaxCEInt lr yr) yLogits y)

/-- The mapping returned by `batch_metrics`, with one field per key of the
Python dict. -/
structure Metrics where
  crossEntropy : ℝ
  accuracy : ℝ

/-- `batch_metrics(params, static, tokens)` (lines 61-78): the per-position
cross-entropy matrix and the per-position argmax-accuracy indicator matrix,
each reduced by `jnp.mean`. -/
noncomputable def batch_metrics (params : DecoderOnlyTransformer) (static : Unit)
    (tokens : List (List ℤ)) : Metrics :=
  let model := combineModel params static
  let x := tokens.map (fun row => row.dropLast)
  let y := tokens.map (fun row => row.drop 1)
  let yLogits := x.map model.forward
  let ceMat := List.zipWith (fun lr yr => List.zipWith softmaxCEInt lr yr) yLogits y
  let accMat := List.zipWith (fun lr yr =>
    List.zipWith (fun lg yv => if (argmaxList lg : ℤ) = yv then (1 : ℝ) else 0) lr yr)
    yLogits y
  { crossEntropy := matMean ceMat, accuracy := matMean accMat }

/-- `eval(model, dataset, batch_size, n_iters, key)` (lines 81-106): partition
the model, compute `batch_metrics` on every loader batch and average each
metric over the iterations. -/
noncomputable def eval (model : DecoderOnlyTransformer) (dataset : List (List ℤ))
    (batchSize nIters key : ℕ) : Metrics :=
  let pm := partitionModel model
  let batchList := (loader dataset batchSize nIters key).map
    (fun batch => batch_metrics pm.1 pm.2 batch)
  { crossEntropy := listMean (batchList.map Metrics.crossEntropy)
    accuracy := listMean (batchList.map Metrics.accuracy) }

/-- The `{f"{prefix}/{name}": value}` relabelling of one metrics dict. -/
def tagMetrics (tag : String) (m : Metrics) : List (String × ℝ) :=
  [(tag ++ "/cross-entropy", m.crossEntropy), (tag ++ "/accuracy", m.accuracy)]

/-- The evaluation/reporting block of `train` (lines 154-165): for each
`(dataset, prefix)` pair in `[(train_dataset, "train"), (test_dataset,
"test")]`, split the key and call `eval` — the source passes `test_dataset`
to `eval` in both iterations, and passes the freshly split first key — then
collect the prefixed metrics.  Returns the final key and the logged
entries. -/
noncomputable def evalBlock (model : DecoderOnlyTransformer)
    (trainDs testDs : List (List ℤ)) (batchSize nEvalIter key : ℕ) :
    ℕ × List (String × ℝ) :=
  ([(trainDs, "train"), (testDs, "test")] : List (List (List ℤ) × String)).foldl
    (fun acc dsTag =>
      let k := (split2 acc.1).1
      let metrics := eval model testDs batchSize nEvalIter k
      (k, acc.2 ++ tagMetrics dsTag.2 metrics))
    (key, [])

/-- One iteration of the training loop of `train` (lines 149-165), parametric
in the gradient transformation: `jax.grad(loss_fn)`, `optimizer.update` and
`optax.apply_updates` are modelled as abstract functions, since the verified
frame property concerns which state the loop body writes, not the numerical
content of the update.  Returns the new parameters, the new optimizer state,
the new key and the logged metrics. -/
noncomputable def trainStep {O U : Type}
    (gradFn : DecoderOnlyTransformer → Unit → List (List ℤ) → U)
    (optUpdate : U → O → DecoderOnlyTransformer → U × O)
    (applyUpd : DecoderOnlyTransformer → U → DecoderOnlyTransformer)
    (static : Unit) (trainDs testDs : List (List ℤ)) (batchSize nEvalIter : ℕ)
    (params : DecoderOnlyTransformer) (optState : O) (key : ℕ)
    (iterId : ℕ) (batch : List (List ℤ)) :
    DecoderOnlyTransformer × O × ℕ × List (String × ℝ) :=
  let grads := gradFn params static batch
  let upd := optUpdate grads optState params
  let params1 := applyUpd params upd.1
  if iterId % 100 = 0 then
    let model := combineModel params1 static
    let eb := evalBlock model trainDs testDs batchSize nEvalIter key
    (params1, upd.2, eb.1, eb.2)
  else
    (params1, upd.2, key, [])

/-- Specification-side definition for the accuracy metric, following the
claim wording: the mean over all batch and position elements of the indicator
that the argmax of the logits equals the shift-by-one target. -/
noncomputable def specAccuracy (params : DecoderOnlyTransformer) (static : Unit)
    (tokens : List (List ℤ)) : ℝ :=
  let model := combineModel params static
  let x := tokens.map (fun row => row.dropLast)
  let y := tokens.map (fun row => row.drop 1)
  let yLogits := x.map model.forward
  matMean (List.zipWith (fun lr yr =>
    List.zipWith (fun lg yv => if (argmaxList lg : ℤ) = yv then (1 : ℝ) else 0) lr yr)
    yLogits y)

/-- A concrete one-layer model instance (`d_model = 1`, one head,
`num_embeddings = 2`, `num_logits = 1`) used to instantiate universally
quantified theorems at explicit inputs. -/
noncomputable def tinyLayer : DecoderOnlyLayer :=
  { mha := { numHeads := 1, qkSize := 1, wq := [[1]], wk := [[1]], wv := [[1]], wo := [[1]] }
    ffn := { w1 := [[1], [1], [1], [1]], w2 := [[1, 1, 1, 1]] }
    norm1 := { weight := [1], bias := [0], eps := 1 / 100000 }
    norm2 := { weight := [1], bias := [0], eps := 1 / 100000 } }

/-- A concrete `DecoderOnlyTransformer` instance built from `tinyLayer`. -/
noncomputable def tinyModel : DecoderOnlyTransformer :=
  { embedding := [[0], [1]], layers := [tinyLayer], logitsW := [[1]], logitsB := [0] }

/-! ### Helper lemmas -/

theorem getD_range_map {α : Type} (f : ℕ → α) (d : α) {n i : ℕ} (h : i < n) :
    ((List.range n).map f).getD i d = f i := by
  simp [List.getD_eq_getElem?_getD, List.getElem?_map, List.getElem?_range h]

theorem sum_range_eyeRow (i m : ℕ) :
    ((List.range m).map (fun t => if i = t then (1 : ℤ) else 0)).sum =
      if i < m then 1 else 0 := by
  induction m with
  | zero => simp
  | succ m ih =>
      rw [List.range_succ, List.map_append, List.sum_append, ih]
      by_cases h : i = m
      · subst h
        simp [Nat.lt_succ_iff]
      · rcases Nat.lt_or_ge i m with hlt | hge
        · simp [h, hlt, Nat.lt_succ_of_lt hlt]
        · have h1 : ¬ i < m := Nat.not_lt.mpr hge
          have h2 : ¬ i < m + 1 := by
            intro hc
            exact h (Nat.le_antisymm (Nat.lt_succ_iff.mp hc) hge)
          simp [h, h1, h2]

theorem buildMask_eq (n : ℕ) :
    buildMask n =
      (List.range n).map (fun i => (List.range n).map (fun j => decide (j ≤ i))) := by
  have hC : cumsumAxis1 (eyeMat n) =
      (List.range n).map
        (fun i => cumsumRow ((List.range n).map (fun j => if i = j then (1 : ℤ) else 0))) := by
    simp [cumsumAxis1, eyeMat, List.map_map]
  have hClen : (cumsumAxis1 (eyeMat n)).length = n := by
    rw [hC]; simp
  unfold buildMask transposeSq
  rw [hClen, List.map_map]
  apply List.map_congr_left
  intro i hi
  rw [List.mem_range] at hi
  simp only [Function.comp]
  rw [List.map_map]
  apply List.map_congr_left
  intro j hj
  rw [List.mem_range] at hj
  simp only [Function.comp]
  have hrow : (cumsumAxis1 (eyeMat n)).getD j [] =
      cumsumRow ((List.range n).map (fun t => if j = t then (1 : ℤ) else 0)) := by
    rw [hC, getD_range_map _ _ hj]
  rw [hrow]
  unfold cumsumRow
  have hlen : ((List.range n).map (fun t => if j = t then (1 : ℤ) else 0)).length = n := by
    simp
  rw [hlen]
  have hentry :
      (((List.range n).map (fun t => (((List.range n).map
          (fun t2 => if j = t2 then (1 : ℤ) else 0)).take (t + 1)).sum)).getD i 0) =
        (((List.range n).map (fun t2 => if j = t2 then (1 : ℤ) else 0)).take (i + 1)).sum := by
    exact getD_range_map _ _ hi
  rw [hentry, ← List.map_take, List.take_range]
  rw [sum_range_eyeRow]
  have hmin : j < min (i + 1) n ↔ j ≤ i := by
    constructor
    · intro h
      exact Nat.lt_succ_iff.mp (lt_of_lt_of_le h (min_le_left _ _))
    · intro h
      exact lt_min (Nat.lt_succ_of_le h) hj
  by_cases h : j ≤ i
  · simp [hmin.mpr h, h]
  · have h1 : ¬ j < min (i + 1) n := fun hc => h (hmin.mp hc)
    simp [h1, h]

theorem maskAt_buildMask {n i j : ℕ} (hi : i < n) (hj : j < n) :
    maskAt (buildMask n) i j = decide (j ≤ i) := by
  unfold maskAt
  rw [buildMask_eq, getD_range_map _ _ hi, getD_range_map _ _ hj]

theorem getD_zipWith {α β γ : Type} (f : α → β → γ) {as : List α} {bs : List β}
    {j : ℕ} (ha : j < as.length) (hb : j < bs.length) (d : γ) (da : α) (db : β) :
    (List.zipWith f as bs).getD j d = f (as.getD j da) (bs.getD j db) := by
  have hl : j < (List.zipWith f as bs).length := by
    rw [List.length_zipWith]
    exact lt_min ha hb
  rw [List.getD_eq_getElem _ _ hl, List.getD_eq_getElem _ _ ha,
    List.getD_eq_getElem _ _ hb, List.getElem_zipWith]

theorem getD_map {α β : Type} (f : α → β) {as : List α} {j : ℕ}
    (ha : j < as.length) (d : β) (da : α) :
    (as.map f).getD j d = f (as.getD j da) := by
  have hl : j < (as.map f).length := by
    rw [List.length_map]; exact ha
  rw [List.getD_eq_getElem _ _ hl, List.getD_eq_getElem _ _ ha, List.getElem_map]

theorem length_matVec (W : List (List ℝ)) (x : List ℝ) :
    (matVec W x).length = W.length := by
  simp [matVec]

theorem length_mhaOut (p : MHAParams) (mask : List (List Bool)) (xs : List (List ℝ)) :
    (mhaOut p mask xs).length = xs.length := by
  simp [mhaOut]

theorem length_layerCall (l : DecoderOnlyLayer) (xs : List (List ℝ))
    (mask : List (List Bool)) : (l.call xs mask).length = xs.length := by
  simp [DecoderOnlyLayer.call, mhaOut, List.length_zipWith]

theorem length_foldl_layers (layers : List DecoderOnlyLayer)
    (mask : List (List Bool)) (xs : List (List ℝ)) :
    (layers.foldl (fun acc l => l.call acc mask) xs).length = xs.length := by
  induction layers generalizing xs with
  | nil => rfl
  | cons l ls ih =>
      rw [List.foldl_cons, ih, length_layerCall]

theorem length_forward (M : DecoderOnlyTransformer) (x : List ℤ) :
    (M.forward x).length = x.length := by
  unfold DecoderOnlyTransformer.forward
  rw [List.length_map, length_foldl_layers, List.length_map]

theorem getD_mhaOut (p : MHAParams) (mask : List (List Bool))
    {xs : List (List ℝ)} {j : ℕ} (h : j < xs.length) :
    (mhaOut p mask xs).getD j [] = matVec p.wo (headsConcat p mask xs j) := by
  unfold mhaOut
  exact getD_range_map _ _ h

/-! ### Causality of the masked attention

With the mask produced by `buildMask L`, every quantity computed at a query
position `q` depends only on input rows at positions `≤ q`.  The following
congruence lemmas track this through the attention stack: two inputs that
agree on all rows up to position `i` produce the same values at every query
position `q ≤ i`. -/

theorem maskedExpScore_congr (p : MHAParams) {L : ℕ} {xs xs' : List (List ℝ)}
    {i : ℕ} (hP : ∀ j, j ≤ i → j < L → xs.getD j [] = xs'.getD j [])
    (hIdx : ℕ) {q t : ℕ} (hq : q ≤ i) (hqL : q < L) (htL : t < L) :
    maskedExpScore p (buildMask L) xs hIdx q t =
      maskedExpScore p (buildMask L) xs' hIdx q t := by
  unfold maskedExpScore
  rw [maskAt_buildMask hqL htL]
  by_cases h : t ≤ q
  · have hxq : xs.getD q [] = xs'.getD q [] := hP q hq hqL
    have hxt : xs.getD t [] = xs'.getD t [] := hP t (le_trans h hq) htL
    unfold attnScore
    rw [hxq, hxt]
  · simp [h]

theorem attnWeight_congr (p : MHAParams) {L : ℕ} {xs xs' : List (List ℝ)}
    (hxs : xs.length = L) (hxs' : xs'.length = L)
    {i : ℕ} (hP : ∀ j, j ≤ i → j < L → xs.getD j [] = xs'.getD j [])
    (hIdx : ℕ) {q t : ℕ} (hq : q ≤ i) (hqL : q < L) (htL : t < L) :
    attnWeight p (buildMask L) xs hIdx q t =
      attnWeight p (buildMask L) xs' hIdx q t := by
  unfold attnWeight
  rw [hxs, hxs', maskedExpScore_congr p hP hIdx hq hqL htL]
  congr 2
  apply List.map_congr_left
  intro u hu
  rw [List.mem_range] at hu
  exact maskedExpScore_congr p hP hIdx hq hqL hu

theorem attnWeight_masked_zero (p : MHAParams) {L : ℕ} (xs : List (List ℝ))
    (hIdx : ℕ) {q t : ℕ} (hqL : q < L) (htL : t < L) (h : ¬ t ≤ q) :
    attnWeight p (buildMask L) xs hIdx q t = 0 := by
  unfold attnWeight maskedExpScore
  rw [maskAt_buildMask hqL htL]
  simp [h]

theorem headOut_congr (p : MHAParams) {L : ℕ} {xs xs' : List (List ℝ)}
    (hxs : xs.length = L) (hxs' : xs'.length = L)
    {i : ℕ} (hP : ∀ j, j ≤ i → j < L → xs.getD j [] = xs'.getD j [])
    (hIdx : ℕ) {q : ℕ} (hq : q ≤ i) (hqL : q < L) :
    headOut p (buildMask L) xs hIdx q = headOut p (buildMask L) xs' hIdx q := by
  unfold headOut
  rw [hxs, hxs']
  apply List.map_congr_left
  intro d _
  congr 1
  apply List.map_congr_left
  intro t ht
  rw [List.mem_range] at ht
  by_cases hcase : t ≤ q
  · rw [attnWeight_congr p hxs hxs' hP hIdx hq hqL ht,
      hP t (le_trans hcase hq) ht]
  · rw [attnWeight_masked_zero p xs hIdx hqL ht hcase,
      attnWeight_masked_zero p xs' hIdx hqL ht hcase]
    rw [zero_mul, zero_mul]

theorem mhaRow_congr (p : MHAParams) {L : ℕ} {xs xs' : List (List ℝ)}
    (hxs : xs.length = L) (hxs' : xs'.length = L)
    {i : ℕ} (hP : ∀ j, j ≤ i → j < L → xs.getD j [] = xs'.getD j [])
    {q : ℕ} (hq : q ≤ i) (hqL : q < L) :
    matVec p.wo (headsConcat p (buildMask L) xs q) =
      matVec p.wo (headsConcat p (buildMask L) xs' q) := by
  unfold headsConcat
  congr 2
  apply List.map_congr_left
  intro hIdx _
  exact headOut_congr p hxs hxs' hP hIdx hq hqL

theorem resStep_congr (g : List ℝ → List ℝ) {L : ℕ} {as as' bs bs' : List (List ℝ)}
    (ha : as.length = L) (ha' : as'.length = L)
    (hb : bs.length = L) (hb' : bs'.length = L) {j : ℕ} (hjL : j < L)
    (hag : as.getD j [] = as'.getD j []) (hbg : bs.getD j [] = bs'.getD j []) :
    ((List.zipWith addVec as bs).map g).getD j [] =
      ((List.zipWith addVec as' bs').map g).getD j [] := by
  have h1 : j < (List.zipWith addVec as bs).length := by
    rw [List.length_zipWith, ha, hb]
    simpa using hjL
  have h1' : j < (List.zipWith addVec as' bs').length := by
    rw [List.length_zipWith, ha', hb']
    simpa using hjL
  rw [getD_map g h1 [] [], getD_map g h1' [] [],
    getD_zipWith addVec (by rw [ha]; exact hjL) (by rw [hb]; exact hjL) [] [] [],
    getD_zipWith addVec (by rw [ha']; exact hjL) (by rw [hb']; exact hjL) [] [] [],
    hag, hbg]

theorem layerCall_causal (l : DecoderOnlyLayer) {L : ℕ} {xs xs' : List (List ℝ)}
    (hxs : xs.length = L) (hxs' : xs'.length = L)
    {i : ℕ} (hP : ∀ j, j ≤ i → j < L → xs.getD j [] = xs'.getD j []) :
    ∀ j, j ≤ i → j < L →
      (l.call xs (buildMask L)).getD j [] = (l.call xs' (buildMask L)).getD j [] := by
  intro j hj hjL
  have hAtt : (mhaOut l.mha (buildMask L) xs).length = L := by
    rw [length_mhaOut, hxs]
  have hAtt' : (mhaOut l.mha (buildMask L) xs').length = L := by
    rw [length_mhaOut, hxs']
  have hAttRow : (mhaOut l.mha (buildMask L) xs).getD j [] =
      (mhaOut l.mha (buildMask L) xs').getD j [] := by
    rw [getD_mhaOut _ _ (by rw [hxs]; exact hjL),
      getD_mhaOut _ _ (by rw [hxs']; exact hjL)]
    exact mhaRow_congr l.mha hxs hxs' hP hj hjL
  have hxs1len :
      ((List.zipWith addVec xs (mhaOut l.mha (buildMask L) xs)).map
        (lnApply l.norm1)).length = L := by
    rw [List.length_map, List.length_zipWith, hxs, hAtt]
    exact min_self L
  have hxs1len' :
      ((List.zipWith addVec xs' (mhaOut l.mha (buildMask L) xs')).map
        (lnApply l.norm1)).length = L := by
    rw [List.length_map, List.length_zipWith, hxs', hAtt']
    exact min_self L
  have hxs1row :
      ((List.zipWith addVec xs (mhaOut l.mha (buildMask L) xs)).map
        (lnApply l.norm1)).getD j [] =
      ((List.zipWith addVec xs' (mhaOut l.mha (buildMask L) xs')).map
        (lnApply l.norm1)).getD j [] :=
    resStep_congr _ hxs hxs' hAtt hAtt' hjL (hP j hj hjL) hAttRow
  simp only [DecoderOnlyLayer.call]
  apply resStep_congr _ hxs1len hxs1len'
    (by rw [List.length_map]; exact hxs1len) (by rw [List.length_map]; exact hxs1len')
    hjL hxs1row
  rw [getD_map (ffnApply l.ffn) (by rw [hxs1len]; exact hjL) [] [],
    getD_map (ffnApply l.ffn) (by rw [hxs1len']; exact hjL) [] [], hxs1row]

theorem foldl_layers_causal (layers : List DecoderOnlyLayer) {L : ℕ}
    {xs xs' : List (List ℝ)} (hxs : xs.length = L) (hxs' : xs'.length = L)
    {i : ℕ} (hP : ∀ j, j ≤ i → j < L → xs.getD j [] = xs'.getD j []) :
    ∀ j, j ≤ i → j < L →
      (layers.foldl (fun acc l => l.call acc (buildMask L)) xs).getD j [] =
        (layers.foldl (fun acc l => l.call acc (buildMask L)) xs').getD j [] := by
  induction layers generalizing xs xs' with
  | nil => simpa using hP
  | cons l ls ih =>
      rw [List.foldl_cons, List.foldl_cons]
      exact ih (by rw [length_layerCall, hxs]) (by rw [length_layerCall, hxs'])
        (layerCall_causal l hxs hxs' hP)

theorem split_succ (k m : ℕ) :
    split k (m + 1) = mix k 0 :: (List.range m).map (fun t => mix k (t + 1)) := by
  unfold split
  rw [List.range_succ_eq_map, List.map_cons, List.map_map]
  rfl

theorem mapM_layerInit_some (d h : ℕ) (hdiv : d % h = 0) (ks : List ℕ) :
    ks.mapM (fun sk => DecoderOnlyLayer.init d h sk) =
      some (ks.map (fun sk => layerOf d h sk)) := by
  induction ks with
  | nil => rfl
  | cons k ks ih =>
      have hhead : DecoderOnlyLayer.init d h k = some (layerOf d h k) := by
        unfold DecoderOnlyLayer.init
        rw [if_pos hdiv]
      rw [List.mapM_cons, List.map_cons, hhead, ih]
      rfl

theorem mapM_layerInit_none (d h : ℕ) (hdiv : ¬ d % h = 0) (k : ℕ) (ks : List ℕ) :
    (k :: ks).mapM (fun sk => DecoderOnlyLayer.init d h sk) = none := by
  have hhead : DecoderOnlyLayer.init d h k = none := by
    unfold DecoderOnlyLayer.init
    rw [if_neg hdiv]
  rw [List.mapM_cons, hhead]
  rfl

theorem forall_mem_zipWith {α β γ : Type} {f : α → β → γ} {P : γ → Prop}
    (h : ∀ a b, P (f a b)) :
    ∀ (as : List α) (bs : List β), ∀ x ∈ List.zipWith f as bs, P x := by
  intro as
  induction as with
  | nil =>
      intro bs x hx
      simp at hx
  | cons a as ih =>
      intro bs x hx
      cases bs with
      | nil => simp at hx
      | cons b bs =>
          rw [List.zipWith_cons_cons] at hx
          rcases List.mem_cons.mp hx with h1 | h2
          · rw [h1]; exact h a b
          · exact ih bs x h2

theorem matMean_bounds {m : List (List ℝ)}
    (h : ∀ row ∈ m, ∀ v ∈ row, 0 ≤ v ∧ v ≤ 1) :
    0 ≤ matMean m ∧ matMean m ≤ 1 := by
  have hnum0 : 0 ≤ (m.map List.sum).sum := by
    apply List.sum_nonneg
    intro s hs
    rw [List.mem_map] at hs
    obtain ⟨row, hrow, rfl⟩ := hs
    exact List.sum_nonneg (fun v hv => (h row hrow v hv).1)
  have hbound : (m.map List.sum).sum ≤ (((m.map List.length).sum : ℕ) : ℝ) := by
    rw [Nat.cast_list_sum, List.map_map]
    apply List.sum_le_sum
    intro row hrow
    have h1 : row.sum ≤ row.length • (1 : ℝ) :=
      List.sum_le_card_nsmul row 1 (fun v hv => (h row hrow v hv).2)
    rw [nsmul_eq_mul, mul_one] at h1
    exact h1
  unfold matMean
  constructor
  · exact div_nonneg hnum0 (Nat.cast_nonneg _)
  · rcases Nat.eq_zero_or_pos ((m.map List.length).sum) with hz | hp
    · have : (m.map List.sum).sum ≤ 0 := by
        rw [hz] at hbound
        simpa using hbound
      have hnum : (m.map List.sum).sum = 0 := le_antisymm this hnum0
      rw [hnum, zero_div]
      exact zero_le_one
    · rw [div_le_one (by exact_mod_cast hp)]
      exact hbound

/-! ### Claim theorems -/

/-- C4: the mask built in `DecoderOnlyTransformer.__call__` by taking the
cumulative sum of the `(seq_len × seq_len)` identity matrix along axis 1,
transposing, and casting to boolean equals the standard lower-triangular
causal mask: entry `(i, j)` is true iff `j ≤ i`. -/
theorem claim_C4_cumsum_mask_is_causal (n i j : ℕ) (hi : i < n) (hj : j < n) :
    maskAt (buildMask n) i j = true ↔ j ≤ i := by
  rw [maskAt_buildMask hi hj]
  simp

/-- Witness for C4 at `seq_len = 3`, `i = 2`, `j = 1`. -/
theorem claim_C4_witness :
    2 < 3 ∧ 1 < 3 ∧ (maskAt (buildMask 3) 2 1 = true ↔ 1 ≤ 2) :=
  ⟨by decide, by decide, claim_C4_cumsum_mask_is_causal 3 2 1 (by decide) (by decide)⟩

/-- C5: for every position `i` and every two valid input token sequences of
equal length that agree on all positions `j ≤ i`, the outputs of
`DecoderOnlyTransformer.__call__` at positions `0..i` are identical: tokens
strictly after position `i` never change the output at position `i` or
earlier. -/
theorem claim_C5_causal_invariance (M : DecoderOnlyTransformer) (x x' : List ℤ)
    (i : ℕ) (hlen : x.length = x'.length)
    (hagree : ∀ j, j ≤ i → x.getD j 0 = x'.getD j 0) :
    ∀ i', i' ≤ i → (M.forward x).getD i' [] = (M.forward x').getD i' [] := by
  intro i' hi'
  by_cases hcase : i' < x.length
  · have hemb : ∀ j, j ≤ i → j < x.length →
        (x.map (fun t => M.embedding.getD t.toNat [])).getD j [] =
          (x'.map (fun t => M.embedding.getD t.toNat [])).getD j [] := by
      intro j hj hjL
      rw [getD_map _ hjL [] 0, getD_map _ (by rw [← hlen]; exact hjL) [] 0,
        hagree j hj]
    simp only [DecoderOnlyTransformer.forward]
    rw [show x'.length = x.length from hlen.symm]
    rw [getD_map (fun row => addVec (matVec M.logitsW row) M.logitsB)
        (by rw [length_foldl_layers, List.length_map]; exact hcase) [] [],
      getD_map (fun row => addVec (matVec M.logitsW row) M.logitsB)
        (by rw [length_foldl_layers, List.length_map, ← hlen]; exact hcase) [] []]
    exact congrArg (fun r => addVec (matVec M.logitsW r) M.logitsB)
      (foldl_layers_causal M.layers (by rw [List.length_map])
        (by rw [List.length_map, ← hlen]) hemb i' hi' hcase)
  · have h1 : (M.forward x).length ≤ i' := by
      rw [length_forward]
      omega
    have h2 : (M.forward x').length ≤ i' := by
      rw [length_forward, ← hlen]
      omega
    rw [List.getD_eq_default _ _ h1, List.getD_eq_default _ _ h2]

/-- Witness for C5: `tinyModel` on `[1, 0]` and `[1, 7]`, which agree up to
position `i = 0`, produces identical outputs at position 0. -/
theorem claim_C5_witness :
    (([1, 0] : List ℤ).length = ([1, 7] : List ℤ).length) ∧
      (∀ j, j ≤ 0 → ([1, 0] : List ℤ).getD j 0 = ([1, 7] : List ℤ).getD j 0) ∧
      ∀ i', i' ≤ 0 →
        (tinyModel.forward [1, 0]).getD i' [] = (tinyModel.forward [1, 7]).getD i' [] :=
  ⟨rfl,
   by
     intro j hj
     have hz : j = 0 := Nat.le_zero.mp hj
     subst hz
     rfl,
   claim_C5_causal_invariance tinyModel [1, 0] [1, 7] 0 rfl
     (by
       intro j hj
       have hz : j = 0 := Nat.le_zero.mp hj
       subst hz
       rfl)⟩

/-- C3: for every valid 1-D integer token input of length `seq_len`,
`DecoderOnlyTransformer.__call__` returns an array of shape exactly
`(seq_len, num_logits)`: the sequence dimension always equals the input
length, and every row has length `num_logits`. -/
theorem claim_C3_output_shape (M : DecoderOnlyTransformer)
    (numEmbeddings numLogits : ℕ)
    (hW : M.logitsW.length = numLogits) (hB : M.logitsB.length = numLogits)
    (x : List ℤ) (_hx : ∀ t ∈ x, 0 ≤ t ∧ t.toNat < numEmbeddings) :
    (M.forward x).length = x.length ∧
      ∀ row ∈ M.forward x, row.length = numLogits := by
  refine ⟨length_forward M x, ?_⟩
  intro row hrow
  simp only [DecoderOnlyTransformer.forward] at hrow
  rw [List.mem_map] at hrow
  obtain ⟨a, _, ha⟩ := hrow
  rw [← ha]
  unfold addVec
  rw [List.length_zipWith, length_matVec, hW, hB, min_self]

/-- Witness for C3: `tinyModel` on the valid input `[1, 0]` has output shape
`(2, 1)`. -/
theorem claim_C3_witness :
    (tinyModel.logitsW.length = 1 ∧ tinyModel.logitsB.length = 1 ∧
        ∀ t ∈ ([1, 0] : List ℤ), 0 ≤ t ∧ t.toNat < 2) ∧
      ((tinyModel.forward [1, 0]).length = ([1, 0] : List ℤ).length ∧
        ∀ row ∈ tinyModel.forward [1, 0], row.length = 1) :=
  ⟨⟨rfl, rfl, by decide⟩,
   claim_C3_output_shape tinyModel 2 1 rfl rfl [1, 0] (by decide)⟩

/-- C1 (code divergence): for `num_layers ≥ 1` and a divisible configuration,
construction succeeds, but `key, *subkeys = random.split(key, num_layers)`
leaves only `num_layers - 1` subkeys, so the model contains exactly
`num_layers - 1` `DecoderOnlyLayer` blocks — not `num_layers` as the spec
states. -/
theorem claim_C1_layer_count (numEmbeddings dModel numHeads numLayers numLogits key : ℕ)
    (hn : 1 ≤ numLayers) (hdiv : dModel % numHeads = 0) :
    ∃ M, DecoderOnlyTransformer.init numEmbeddings dModel numHeads numLayers
        numLogits key = some M ∧
      M.layers.length = numLayers - 1 := by
  obtain ⟨m, rfl⟩ : ∃ m, numLayers = m + 1 :=
    ⟨numLayers - 1, (Nat.succ_pred_eq_of_pos hn).symm⟩
  simp only [DecoderOnlyTransformer.init, split_succ, List.isEmpty_cons,
    List.headD_cons, List.tail_cons, Bool.false_eq_true, if_false]
  rw [mapM_layerInit_some _ _ hdiv]
  refine ⟨_, rfl, ?_⟩
  simp

/-- Witness for C1 at the failing input `num_layers = 1`: construction
succeeds and the resulting model holds zero decoder layers. -/
theorem claim_C1_witness :
    1 ≤ 1 ∧ 2 % 1 = 0 ∧
      ∃ M, DecoderOnlyTransformer.init 4 2 1 1 3 0 = some M ∧
        M.layers.length = 1 - 1 :=
  ⟨by decide, by decide, claim_C1_layer_count 4 2 1 1 3 0 (by decide) (by decide)⟩

/-- C7 counterexample: with `num_layers = 1` the swallowed head of the key
split leaves zero layers to construct, so no `DecoderOnlyLayer.__init__`
assertion ever runs: construction succeeds although `3 % 2 ≠ 0`, refuting
"fails at construction time for every num_layers ≥ 1". -/
theorem claim_C7_counterexample :
    3 % 2 ≠ 0 ∧ 1 ≤ 1 ∧
      (DecoderOnlyTransformer.init 5 3 2 1 7 0).isSome = true :=
  ⟨by decide, by decide, by rfl⟩

/-- C7 as amended: for `num_layers ≥ 2` (so that at least one
`DecoderOnlyLayer` is actually constructed) construction succeeds iff
`d_model` is divisible by `num_heads`; in particular a non-divisible
configuration is fatal at construction time. -/
theorem claim_C7_construction_divisibility
    (numEmbeddings dModel numHeads numLayers numLogits key : ℕ)
    (_hh : 0 < numHeads) (hn : 2 ≤ numLayers) :
    (DecoderOnlyTransformer.init numEmbeddings dModel numHeads numLayers
        numLogits key).isSome = true ↔
      dModel % numHeads = 0 := by
  obtain ⟨m, rfl⟩ : ∃ m, numLayers = m + 2 := ⟨numLayers - 2, by omega⟩
  simp only [DecoderOnlyTransformer.init, split_succ, List.isEmpty_cons,
    List.headD_cons, List.tail_cons, Bool.false_eq_true, if_false]
  by_cases hdiv : dModel % numHeads = 0
  · rw [mapM_layerInit_some _ _ hdiv]
    simp [hdiv]
  · rw [show m + 1 = m + 0 + 1 by omega, List.range_succ_eq_map, List.map_cons,
      mapM_layerInit_none _ _ hdiv]
    simp [hdiv]

/-- Witness for C7 (amended) at `num_layers = 2`, `d_model = 3`,
`num_heads = 2`: construction fails, matching `3 % 2 ≠ 0`. -/
theorem claim_C7_witness :
    0 < 2 ∧ 2 ≤ 2 ∧
      ((DecoderOnlyTransformer.init 5 3 2 2 7 0).isSome = true ↔ 3 % 2 = 0) :=
  ⟨by decide, by decide, claim_C7_construction_divisibility 5 3 2 2 7 0 (by decide) (by decide)⟩

/-- C6: for a nonempty dataset, `loader` yields exactly `n_iters` batches of
`batch_size` items each; every batch element is the dataset item at a sampled
index in `[0, N)` (sampling is with replacement, so duplicates are allowed);
and the produced sequence is a deterministic function of the key, dataset and
sizes — two runs with the same arguments are identical. -/
theorem claim_C6_loader {α : Type} [Inhabited α] (dataset : List α)
    (batchSize nIters key : ℕ) (hN : 1 ≤ dataset.length) :
    (loader dataset batchSize nIters key).length = nIters ∧
      (∀ batch ∈ loader dataset batchSize nIters key,
        batch.length = batchSize ∧
          ∀ v ∈ batch, ∃ idx, idx < dataset.length ∧ v = dataset.getD idx default) ∧
      loader dataset batchSize nIters key = loader dataset batchSize nIters key := by
  refine ⟨by simp [loader, split], ?_, rfl⟩
  intro batch hb
  simp only [loader] at hb
  rw [List.mem_map] at hb
  obtain ⟨sk, hsk, hbatch⟩ := hb
  constructor
  · rw [← hbatch]
    simp [choice]
  · intro v hv
    rw [← hbatch] at hv
    rw [List.mem_map] at hv
    obtain ⟨idx, hidx, rfl⟩ := hv
    refine ⟨idx, ?_, rfl⟩
    simp only [choice] at hidx
    rw [List.mem_map] at hidx
    obtain ⟨t, _, rfl⟩ := hidx
    exact Nat.mod_lt _ hN

/-- Witness for C6 on the two-element dataset `[5, 6]` with `batch_size = 2`
and `n_iters = 3`. -/
theorem claim_C6_witness :
    1 ≤ ([5, 6] : List ℤ).length ∧
      ((loader ([5, 6] : List ℤ) 2 3 0).length = 3 ∧
        (∀ batch ∈ loader ([5, 6] : List ℤ) 2 3 0,
          batch.length = 2 ∧
            ∀ v ∈ batch, ∃ idx, idx < ([5, 6] : List ℤ).length ∧
              v = ([5, 6] : List ℤ).getD idx default) ∧
        loader ([5, 6] : List ℤ) 2 3 0 = loader ([5, 6] : List ℤ) 2 3 0) :=
  ⟨by decide, claim_C6_loader [5, 6] 2 3 0 (by decide)⟩

/-- C2 (code divergence): in the reporting block of `train`, the loop variable
`dataset` of `for dataset, prefix in [(train_dataset, "train"),
(test_dataset, "test")]` is never used — `eval` is called on `test_dataset`
in both iterations.  Hence the entries logged under the "train" prefix, just
like those under the "test" prefix, are computed on batches of the held-out
dataset, and the training dataset is never evaluated. -/
theorem claim_C2_train_metrics_use_test_dataset (model : DecoderOnlyTransformer)
    (trainDs testDs : List (List ℤ)) (batchSize nEvalIter key : ℕ) :
    (evalBlock model trainDs testDs batchSize nEvalIter key).2 =
      tagMetrics "train" (eval model testDs batchSize nEvalIter (split2 key).1) ++
        tagMetrics "test"
          (eval model testDs batchSize nEvalIter (split2 (split2 key).1).1) := by
  rfl

/-- C8: `batch_metrics` reports under "cross-entropy" exactly the value of
`loss_fn` on the same parameters and batch, and under "accuracy" exactly the
mean over all batch and position elements of the indicator that the argmax of
the logits equals the shift-by-one target. -/
theorem claim_C8_metrics_refine_loss (params : DecoderOnlyTransformer)
    (static : Unit) (tokens : List (List ℤ)) :
    (batch_metrics params static tokens).crossEntropy = loss_fn params static tokens ∧
      (batch_metrics params static tokens).accuracy = specAccuracy params static tokens :=
  ⟨rfl, rfl⟩

/-- C9: in one iteration of the training loop, the resulting parameters and
optimizer state are exactly the output of the optimizer update applied to the
gradients — whether or not the evaluation block runs (`iter_id % 100 == 0`),
the forward passes inside `loss_fn`, `batch_metrics` and `eval` leave both
unchanged. -/
theorem claim_C9_params_only_changed_by_update {O U : Type}
    (gradFn : DecoderOnlyTransformer → Unit → List (List ℤ) → U)
    (optUpdate : U → O → DecoderOnlyTransformer → U × O)
    (applyUpd : DecoderOnlyTransformer → U → DecoderOnlyTransformer)
    (static : Unit) (trainDs testDs : List (List ℤ)) (batchSize nEvalIter : ℕ)
    (params : DecoderOnlyTransformer) (optState : O) (key iterId : ℕ)
    (batch : List (List ℤ)) :
    (trainStep gradFn optUpdate applyUpd static trainDs testDs batchSize nEvalIter
        params optState key iterId batch).1 =
      applyUpd params (optUpdate (gradFn params static batch) optState params).1 ∧
    (trainStep gradFn optUpdate applyUpd static trainDs testDs batchSize nEvalIter
        params optState key iterId batch).2.1 =
      (optUpdate (gradFn params static batch) optState params).2 := by
  unfold trainStep
  by_cases h : iterId % 100 = 0 <;> simp [h]

/-- C10: the "accuracy" value reported by `batch_metrics` always lies in
`[0, 1]`, being the arithmetic mean of 0/1 indicator values. -/
theorem claim_C10_accuracy_in_unit_interval (params : DecoderOnlyTransformer)
    (static : Unit) (tokens : List (List ℤ)) :
    0 ≤ (batch_metrics params static tokens).accuracy ∧
      (batch_metrics params static tokens).accuracy ≤ 1 := by
  simp only [batch_metrics]
  apply matMean_bounds
  intro row hrow
  have houter := forall_mem_zipWith
    (f := fun lr yr => List.zipWith
      (fun lg yv => if (argmaxList lg : ℤ) = yv then (1 : ℝ) else 0) lr yr)
    (P := fun row => ∀ v ∈ row, 0 ≤ v ∧ v ≤ 1)
    (by
      intro lr yr
      intro v hv
      have hinner := forall_mem_zipWith
        (f := fun lg yv => if (argmaxList lg : ℤ) = yv then (1 : ℝ) else 0)
        (P := fun v => 0 ≤ v ∧ v ≤ 1)
        (by
          intro lg yv
          by_cases hc : (argmaxList lg : ℤ) = yv
          · simp [hc]
          · simp [hc])
        lr yr
      exact hinner v hv)
  exact houter _ _ row hrow

end Cubeformer
